import Mathlib

/-!
Verification of the index-stitching and history-walking layer of the
`dragons` repository (`dragons/meraxes/io.py` and
`dragons/meraxes/galaxy_history.py`).

The HDF5 master file is modelled shallowly: a `MasterFile` holds the
file-level `NCores` attribute and the ordered list of `Snap%03d` groups;
each `Snapshot` holds its `NGalaxies` attribute and its `Core%d` groups;
each `Core` holds the `Galaxies` record dataset and the three link-index
datasets.  Group lookups that would raise `KeyError` in `h5py` are
modelled by `Option`/`Except` failures.  A negative snapshot number never
names an existing group (the code formats `"Snap-01"` for snapshot `-1`,
which is never present), so looking up the group below snapshot 0 fails.
-/

namespace Dragons

/-- One galaxy record.  The traversal logic in `galaxy_history` only ever
inspects the `ID` field of a record; all other fields are opaque payload
carried from the catalog into the history array, so the record is
modelled by its identifier. -/
structure GalRec where
  id : Int
deriving DecidableEq, Repr

/-- One `Core%d` group of a snapshot: the `Galaxies` dataset and the three
per-core link-index datasets. -/
structure Core where
  recs : List GalRec
  fp : List Int
  npi : List Int
  desc : List Int
deriving DecidableEq, Repr

/-- One `Snap%03d` group: the `NGalaxies` attribute and the core groups. -/
structure Snapshot where
  nGals : Nat
  cores : List Core
deriving DecidableEq, Repr

/-- The master file: the `NCores` attribute and the snapshot groups in
snapshot order. -/
structure MasterFile where
  nCores : Nat
  snaps : List Snapshot
deriving DecidableEq, Repr

/-- Read a dataset of each of the core groups `Core0 .. Core(n-1)` in
order; the access fails (h5py `KeyError`) exactly when some core group in
that range is missing, i.e. when `n` exceeds the number of cores. -/
def coreSeq {α : Type} (cores : List Core) (sel : Core → α) (n : Nat) : Option (List α) :=
  if n ≤ cores.length then some ((cores.take n).map sel) else none

/-- Cumulative offsets: `np.cumsum` of `[acc, s₀, s₁, ...]`, i.e. the
running partial sums starting from `acc`.  Entry `i` is `acc` plus the sum
of the first `i` sizes. -/
def offsetsFrom (acc : Nat) : List Nat → List Nat
  | [] => [acc]
  | s :: rest => acc :: offsetsFrom (acc + s) rest

/-- The per-element offset update of the stitching loops: the offset is
added only when the stored value is `> -1` (the sentinel `-1`, and any
other negative value, passes through unchanged). -/
def applyOffset (off : Nat) (v : Int) : Int :=
  if v > -1 then v + off else v

/-- `ds.read_direct(dest, dest_sel=np.s_[counter:counter+len(src)])`:
overwrite the slice of `dest` starting at `counter` with `src`.  Only used
under the guard `counter + src.length ≤ dest.length`. -/
def writeAt (dest : List Int) (counter : Nat) (src : List Int) : List Int :=
  dest.take counter ++ src ++ dest.drop (counter + src.length)

/-- Pair each raw per-core link array with its destination offset
(`zip`, written out so its equations are in hand). -/
def zipOff : List (List Int) → List Nat → List (List Int × Nat)
  | [], _ => []
  | _ :: _, [] => []
  | r :: rs, o :: os => (r, o) :: zipOff rs os

/-- The per-core loop of `read_firstprogenitor_indices` /
`read_descendant_indices`: for each core, copy its raw sub-array into the
next slice of the result and add the core's destination offset to every
written slot whose value is `> -1`.  An empty core is skipped.  The
`read_direct` call fails when the remaining destination slice is shorter
than the source dataset. -/
def stitchLoop (dest : List Int) (counter : Nat) : List (List Int × Nat) → Option (List Int)
  | [] => some dest
  | (r, o) :: rest =>
    if r.length = 0 then stitchLoop dest counter rest
    else if counter + r.length ≤ dest.length then
      stitchLoop (writeAt dest counter (r.map (applyOffset o))) (counter + r.length) rest
    else none

/-- The per-core loop of `read_nextprogenitor_indices`: identical to
`stitchLoop` except that the offset added to a core's slots is the current
write position `counter` (the cumulative size of the earlier cores of the
same snapshot). -/
def npLoop (dest : List Int) (counter : Nat) : List (List Int) → Option (List Int)
  | [] => some dest
  | r :: rest =>
    if r.length = 0 then npLoop dest counter rest
    else if counter + r.length ≤ dest.length then
      npLoop (writeAt dest counter (r.map (applyOffset counter))) (counter + r.length) rest
    else none

/-- `read_firstprogenitor_indices(fname, snapshot)`: open the snapshot
group and the previous snapshot's group (`"Snap-01"` never exists, so
snapshot 0 always fails), read the previous snapshot's per-core galaxy
counts for cores `0 .. n_cores-2`, cumulate them into offsets, and run the
stitching loop over this snapshot's `FirstProgenitorIndices` datasets into
a zero-initialised array of length `NGalaxies`. -/
def readFirstprogenitorIndices (f : MasterFile) (snapshot : Nat) : Option (List Int) :=
  match f.snaps[snapshot]? with
  | none => none
  | some snapGroup =>
    match (if snapshot = 0 then none else f.snaps[snapshot - 1]?) with
    | none => none
    | some prevGroup =>
      match coreSeq prevGroup.cores (fun c => c.recs.length) (f.nCores - 1) with
      | none => none
      | some sizes =>
        match coreSeq snapGroup.cores Core.fp f.nCores with
        | none => none
        | some raws =>
          stitchLoop (List.replicate snapGroup.nGals 0) 0 (zipOff raws (offsetsFrom 0 sizes))

/-- `read_nextprogenitor_indices(fname, snapshot)`: open only the snapshot
group itself (no adjacent snapshot is touched) and run the
next-progenitor loop, which offsets each core's slots by the running
write position. -/
def readNextprogenitorIndices (f : MasterFile) (snapshot : Nat) : Option (List Int) :=
  match f.snaps[snapshot]? with
  | none => none
  | some snapGroup =>
    match coreSeq snapGroup.cores Core.npi f.nCores with
    | none => none
    | some raws =>
      npLoop (List.replicate snapGroup.nGals 0) 0 raws

/-- `read_descendant_indices(fname, snapshot)`: open the snapshot group
and the next snapshot's group (fails at the last snapshot), read the next
snapshot's per-core galaxy counts for cores `0 .. n_cores-2`, cumulate
them into offsets, and run the stitching loop over this snapshot's
`DescendantIndices` datasets. -/
def readDescendantIndices (f : MasterFile) (snapshot : Nat) : Option (List Int) :=
  match f.snaps[snapshot]? with
  | none => none
  | some snapGroup =>
    match f.snaps[snapshot + 1]? with
    | none => none
    | some nextGroup =>
      match coreSeq nextGroup.cores (fun c => c.recs.length) (f.nCores - 1) with
      | none => none
      | some sizes =>
        match coreSeq snapGroup.cores Core.desc f.nCores with
        | none => none
        | some raws =>
          stitchLoop (List.replicate snapGroup.nGals 0) 0 (zipOff raws (offsetsFrom 0 sizes))

/-- The three link kinds handled by the stitcher. -/
inductive LinkKind where
  | firstProgenitor
  | nextProgenitor
  | descendant
deriving DecidableEq, Repr

/-- The per-core dataset read for each link kind. -/
def linkSel : LinkKind → Core → List Int
  | .firstProgenitor => Core.fp
  | .nextProgenitor => Core.npi
  | .descendant => Core.desc

/-- The stitcher, dispatched on the link kind. -/
def readLinkIndices (f : MasterFile) (snapshot : Nat) : LinkKind → Option (List Int)
  | .firstProgenitor => readFirstprogenitorIndices f snapshot
  | .nextProgenitor => readNextprogenitorIndices f snapshot
  | .descendant => readDescendantIndices f snapshot

/-- Total length of the raw sub-arrays of a paired core list. -/
def totalLen (pairs : List (List Int × Nat)) : Nat :=
  (pairs.map (fun p => p.1.length)).sum

/-- Sum of the lengths of a list of raw sub-arrays. -/
def sumLens (raws : List (List Int)) : Nat :=
  (raws.map List.length).sum

/-- The concatenation of the offset-corrected cores, in core order. -/
def stitchedFlat (pairs : List (List Int × Nat)) : List Int :=
  (pairs.map (fun p => p.1.map (applyOffset p.2))).flatten

theorem writeAt_length (dest src : List Int) (c : Nat) (h : c + src.length ≤ dest.length) :
    (writeAt dest c src).length = dest.length := by
  simp only [writeAt, List.length_append, List.length_take, List.length_drop]
  omega

theorem take_src_append (dest src : List Int) (c : Nat) (h : c + src.length ≤ dest.length) :
    (dest.take c ++ src).length = c + src.length := by
  simp only [List.length_append, List.length_take]
  omega

theorem writeAt_take (dest src : List Int) (c : Nat) (h : c + src.length ≤ dest.length) :
    (writeAt dest c src).take (c + src.length) = dest.take c ++ src := by
  rw [writeAt, ← take_src_append dest src c h, List.take_left]

theorem writeAt_drop (dest src : List Int) (c k : Nat) (h : c + src.length ≤ dest.length) :
    (writeAt dest c src).drop (c + src.length + k) = dest.drop (c + src.length + k) := by
  rw [writeAt,
    show c + src.length + k = (dest.take c ++ src).length + k by
      rw [take_src_append dest src c h],
    List.drop_append, List.drop_drop, take_src_append dest src c h]

theorem totalLen_nil : totalLen [] = 0 := rfl

theorem totalLen_cons (r : List Int) (o : Nat) (rest : List (List Int × Nat)) :
    totalLen ((r, o) :: rest) = r.length + totalLen rest := by
  simp [totalLen]

theorem stitchedFlat_nil : stitchedFlat [] = [] := rfl

theorem stitchedFlat_cons (r : List Int) (o : Nat) (rest : List (List Int × Nat)) :
    stitchedFlat ((r, o) :: rest) = r.map (applyOffset o) ++ stitchedFlat rest := by
  simp [stitchedFlat]

/-- Full characterization of the per-core stitching loop: it succeeds
exactly when the raw sub-arrays fit into the remaining destination space,
and then the result is the untouched prefix, the offset-corrected
concatenation of the cores, and the untouched suffix. -/
theorem stitchLoop_eq : ∀ (pairs : List (List Int × Nat)) (dest : List Int) (counter : Nat),
    counter ≤ dest.length →
    stitchLoop dest counter pairs =
      if counter + totalLen pairs ≤ dest.length then
        some (dest.take counter ++ stitchedFlat pairs ++ dest.drop (counter + totalLen pairs))
      else none
  | [], dest, counter, h => by
    simp [stitchLoop, totalLen_nil, stitchedFlat_nil, h, List.take_append_drop]
  | (r, o) :: rest, dest, counter, h => by
    rw [stitchLoop, totalLen_cons, stitchedFlat_cons]
    by_cases h0 : r.length = 0
    · rw [if_pos h0]
      obtain rfl : r = [] := List.length_eq_zero.mp h0
      rw [stitchLoop_eq rest dest counter h]
      simp
    · rw [if_neg h0]
      by_cases hle : counter + r.length ≤ dest.length
      · rw [if_pos hle]
        have hmlen : counter + (r.map (applyOffset o)).length ≤ dest.length := by
          simpa using hle
        have hlen : (writeAt dest counter (r.map (applyOffset o))).length = dest.length :=
          writeAt_length dest (r.map (applyOffset o)) counter hmlen
        have hle2 : counter + r.length ≤ (writeAt dest counter (r.map (applyOffset o))).length := by
          rw [hlen]; exact hle
        rw [stitchLoop_eq rest _ (counter + r.length) hle2, hlen]
        by_cases hfit : counter + (r.length + totalLen rest) ≤ dest.length
        · rw [if_pos (by omega : counter + r.length + totalLen rest ≤ dest.length),
            if_pos hfit]
          have htk : (writeAt dest counter (r.map (applyOffset o))).take (counter + r.length) =
              dest.take counter ++ r.map (applyOffset o) := by
            have := writeAt_take dest (r.map (applyOffset o)) counter hmlen
            simpa using this
          have hdr : (writeAt dest counter (r.map (applyOffset o))).drop
                (counter + r.length + totalLen rest) =
              dest.drop (counter + r.length + totalLen rest) := by
            have := writeAt_drop dest (r.map (applyOffset o)) counter (totalLen rest) hmlen
            simpa using this
          rw [htk, hdr, Nat.add_assoc]
          simp only [List.append_assoc]
        · rw [if_neg (by omega : ¬ counter + r.length + totalLen rest ≤ dest.length),
            if_neg hfit]
      · rw [if_neg hle, if_neg (by omega : ¬ counter + (r.length + totalLen rest) ≤ dest.length)]

/-- The next-progenitor loop is the stitching loop with the running write
positions as offsets. -/
theorem npLoop_eq_stitchLoop : ∀ (raws : List (List Int)) (dest : List Int) (counter : Nat),
    npLoop dest counter raws =
      stitchLoop dest counter (zipOff raws (offsetsFrom counter (raws.map List.length)))
  | [], dest, counter => by simp [npLoop, offsetsFrom, zipOff, stitchLoop]
  | r :: rest, dest, counter => by
    rw [npLoop, List.map_cons, offsetsFrom, zipOff, stitchLoop]
    by_cases h0 : r.length = 0
    · rw [if_pos h0, if_pos h0, npLoop_eq_stitchLoop rest dest counter]
      obtain rfl : r = [] := List.length_eq_zero.mp h0
      simp [offsetsFrom]
    · rw [if_neg h0, if_neg h0]
      by_cases hle : counter + r.length ≤ dest.length
      · rw [if_pos hle, if_pos hle, npLoop_eq_stitchLoop rest]
      · rw [if_neg hle, if_neg hle]

theorem sumLens_nil : sumLens [] = 0 := rfl

theorem sumLens_cons (r : List Int) (rest : List (List Int)) :
    sumLens (r :: rest) = r.length + sumLens rest := by
  simp [sumLens]

theorem getElem?_lt {α : Type} (l : List α) (j : Nat) (v : α) (h : l[j]? = some v) :
    j < l.length := by
  rcases List.getElem?_eq_some.mp h with ⟨hj, _⟩
  exact hj

theorem totalLen_zipOff : ∀ (raws : List (List Int)) (offs : List Nat),
    raws.length ≤ offs.length → totalLen (zipOff raws offs) = sumLens raws
  | [], _, _ => by simp [zipOff, totalLen_nil, sumLens_nil]
  | r :: rest, [], h => by simp at h
  | r :: rest, o :: orest, h => by
    rw [zipOff, totalLen_cons, sumLens_cons, totalLen_zipOff rest orest (by simpa using h)]

theorem offsetsFrom_length : ∀ (acc : Nat) (s : List Nat),
    (offsetsFrom acc s).length = s.length + 1
  | _, [] => rfl
  | acc, x :: rest => by
    rw [offsetsFrom, List.length_cons, offsetsFrom_length (acc + x) rest, List.length_cons]

theorem offsetsFrom_getElem? : ∀ (acc : Nat) (s : List Nat) (i : Nat), i ≤ s.length →
    (offsetsFrom acc s)[i]? = some (acc + (s.take i).sum)
  | acc, [], 0, _ => by rw [offsetsFrom]; simp
  | acc, [], i + 1, h => by simp at h
  | acc, x :: rest, 0, _ => by rw [offsetsFrom]; simp
  | acc, x :: rest, i + 1, h => by
    rw [offsetsFrom, List.getElem?_cons_succ,
      offsetsFrom_getElem? (acc + x) rest i (by simpa using h)]
    simp only [List.take_succ_cons, List.sum_cons]
    rw [Option.some_inj]
    omega

theorem zipOff_congr : ∀ (raws : List (List Int)) (offs1 offs2 : List Nat),
    (∀ i, i < raws.length → offs1[i]? = offs2[i]?) →
    zipOff raws offs1 = zipOff raws offs2
  | [], offs1, offs2, _ => by
    cases offs1 <;> cases offs2 <;> rfl
  | r :: rest, [], offs2, h => by
    have h0 := h 0 (by simp)
    cases offs2 with
    | nil => rfl
    | cons o os => simp at h0
  | r :: rest, o1 :: os1, offs2, h => by
    have h0 := h 0 (by simp)
    cases offs2 with
    | nil => simp at h0
    | cons o2 os2 =>
      simp only [List.getElem?_cons_zero, Option.some_inj] at h0
      rw [zipOff, zipOff, h0,
        zipOff_congr rest os1 os2 (fun i hi => by
          have := h (i + 1) (by simpa using Nat.succ_lt_succ hi)
          simpa using this)]

theorem stitchedFlat_length_zipOff : ∀ (raws : List (List Int)) (offs : List Nat),
    raws.length ≤ offs.length → (stitchedFlat (zipOff raws offs)).length = sumLens raws
  | [], _, _ => by simp [zipOff, stitchedFlat_nil, sumLens_nil]
  | r :: rest, [], h => by simp at h
  | r :: rest, o :: orest, h => by
    rw [zipOff, stitchedFlat_cons, List.length_append, List.length_map, sumLens_cons,
      stitchedFlat_length_zipOff rest orest (by simpa using h)]

theorem sumLens_take_bound : ∀ (raws : List (List Int)) (i j : Nat) (r : List Int),
    raws[i]? = some r → j < r.length → sumLens (raws.take i) + j < sumLens raws
  | [], i, j, r, h, _ => by simp at h
  | r0 :: rest, 0, j, r, h, hj => by
    simp only [List.getElem?_cons_zero, Option.some_inj] at h
    subst h
    rw [List.take_zero, sumLens_nil, sumLens_cons]
    omega
  | r0 :: rest, i + 1, j, r, h, hj => by
    rw [List.getElem?_cons_succ] at h
    have := sumLens_take_bound rest i j r h hj
    rw [List.take_succ_cons, sumLens_cons, sumLens_cons]
    omega

/-- Position of a single raw element inside the stitched concatenation:
the element of core `i` at local position `j` lands at global position
(sum of the earlier cores' sizes) `+ j`, with that core's offset applied. -/
theorem stitchedFlat_pos : ∀ (raws : List (List Int)) (offs : List Nat) (i j : Nat)
    (r : List Int) (v : Int),
    raws.length ≤ offs.length → raws[i]? = some r → r[j]? = some v →
    ∃ o, offs[i]? = some o ∧
      (stitchedFlat (zipOff raws offs))[sumLens (raws.take i) + j]? = some (applyOffset o v)
  | [], _, i, _, _, _, _, h, _ => by simp at h
  | r0 :: rest, [], _, _, _, _, h, _, _ => by simp at h
  | r0 :: rest, o0 :: orest, 0, j, r, v, hlen, hr, hv => by
    simp only [List.getElem?_cons_zero, Option.some_inj] at hr
    subst hr
    refine ⟨o0, by simp, ?_⟩
    rw [List.take_zero, sumLens_nil, zipOff, stitchedFlat_cons, Nat.zero_add,
      List.getElem?_append_left (by
        rw [List.length_map]
        exact getElem?_lt _ j v hv),
      List.getElem?_map, hv]
    rfl
  | r0 :: rest, o0 :: orest, i + 1, j, r, v, hlen, hr, hv => by
    rw [List.getElem?_cons_succ] at hr
    obtain ⟨o, ho, hpos⟩ :=
      stitchedFlat_pos rest orest i j r v (by simpa using hlen) hr hv
    refine ⟨o, by simpa using ho, ?_⟩
    rw [List.take_succ_cons, sumLens_cons, zipOff, stitchedFlat_cons,
      List.getElem?_append_right (by rw [List.length_map]; omega)]
    rw [List.length_map,
      show r0.length + sumLens (rest.take i) + j - r0.length
        = sumLens (rest.take i) + j from by omega]
    exact hpos

theorem coreSeq_length {α : Type} (cores : List Core) (sel : Core → α) (n : Nat)
    (l : List α) (h : coreSeq cores sel n = some l) : l.length = n := by
  rw [coreSeq] at h
  by_cases hn : n ≤ cores.length
  · rw [if_pos hn, Option.some_inj] at h
    subst h
    simp [List.length_take]
    omega
  · rw [if_neg hn] at h
    exact absurd h (by simp)

theorem coreSeq_le {α : Type} (cores : List Core) (sel : Core → α) (n : Nat)
    (l : List α) (h : coreSeq cores sel n = some l) : n ≤ cores.length := by
  rw [coreSeq] at h
  by_cases hn : n ≤ cores.length
  · exact hn
  · rw [if_neg hn] at h
    exact absurd h (by simp)

theorem coreSeq_mono {α : Type} (cores : List Core) (sel : Core → α) (m n : Nat)
    (l : List α) (hmn : m ≤ n) (h : coreSeq cores sel n = some l) :
    coreSeq cores sel m = some (l.take m) := by
  have hn := coreSeq_le cores sel n l h
  rw [coreSeq, if_pos hn, Option.some_inj] at h
  rw [coreSeq, if_pos (le_trans hmn hn), Option.some_inj, ← h, ← List.map_take,
    List.take_take]
  congr 2
  omega

theorem readFP_zero (f : MasterFile) : readFirstprogenitorIndices f 0 = none := by
  cases h : f.snaps[0]? <;> simp [readFirstprogenitorIndices, h]

/-- Characterization of `read_firstprogenitor_indices` on inputs whose
group and dataset lookups all succeed: the read succeeds exactly when the
per-core link datasets fit into the declared `NGalaxies` total, and then
the result is the offset-corrected concatenation of the cores padded with
the zeros the allocation left untouched. -/
theorem readFP_eq (f : MasterFile) (snapshot : Nat) (sG pG : Snapshot)
    (sizes : List Nat) (raws : List (List Int))
    (hs : f.snaps[snapshot]? = some sG)
    (h0 : snapshot ≠ 0)
    (hp : f.snaps[snapshot - 1]? = some pG)
    (hsz : coreSeq pG.cores (fun c => c.recs.length) (f.nCores - 1) = some sizes)
    (hraws : coreSeq sG.cores Core.fp f.nCores = some raws) :
    readFirstprogenitorIndices f snapshot =
      if sumLens raws ≤ sG.nGals then
        some (stitchedFlat (zipOff raws (offsetsFrom 0 sizes)) ++
          List.replicate (sG.nGals - sumLens raws) 0)
      else none := by
  have hlenr : raws.length = f.nCores := coreSeq_length _ _ _ _ hraws
  have hlens : sizes.length = f.nCores - 1 := coreSeq_length _ _ _ _ hsz
  have hle : raws.length ≤ (offsetsFrom 0 sizes).length := by
    rw [offsetsFrom_length, hlenr, hlens]
    omega
  simp only [readFirstprogenitorIndices, hs, if_neg h0, hp, hsz, hraws]
  rw [stitchLoop_eq _ _ 0 (Nat.zero_le _), totalLen_zipOff raws _ hle]
  simp [List.drop_replicate]

/-- Characterization of `read_nextprogenitor_indices` under successful
lookups: same success condition and shape, with the offsets the running
per-core cumulative sizes of the snapshot's own link datasets. -/
theorem readNP_eq (f : MasterFile) (snapshot : Nat) (sG : Snapshot)
    (raws : List (List Int))
    (hs : f.snaps[snapshot]? = some sG)
    (hraws : coreSeq sG.cores Core.npi f.nCores = some raws) :
    readNextprogenitorIndices f snapshot =
      if sumLens raws ≤ sG.nGals then
        some (stitchedFlat (zipOff raws (offsetsFrom 0 (raws.map List.length))) ++
          List.replicate (sG.nGals - sumLens raws) 0)
      else none := by
  have hle : raws.length ≤ (offsetsFrom 0 (raws.map List.length)).length := by
    rw [offsetsFrom_length, List.length_map]
    omega
  simp only [readNextprogenitorIndices, hs, hraws]
  rw [npLoop_eq_stitchLoop, stitchLoop_eq _ _ 0 (Nat.zero_le _), totalLen_zipOff raws _ hle]
  simp [List.drop_replicate]

/-- Characterization of `read_descendant_indices` under successful
lookups, mirror image of `readFP_eq` with the next snapshot's sizes. -/
theorem readDesc_eq (f : MasterFile) (snapshot : Nat) (sG nG : Snapshot)
    (sizes : List Nat) (raws : List (List Int))
    (hs : f.snaps[snapshot]? = some sG)
    (hn : f.snaps[snapshot + 1]? = some nG)
    (hsz : coreSeq nG.cores (fun c => c.recs.length) (f.nCores - 1) = some sizes)
    (hraws : coreSeq sG.cores Core.desc f.nCores = some raws) :
    readDescendantIndices f snapshot =
      if sumLens raws ≤ sG.nGals then
        some (stitchedFlat (zipOff raws (offsetsFrom 0 sizes)) ++
          List.replicate (sG.nGals - sumLens raws) 0)
      else none := by
  have hlenr : raws.length = f.nCores := coreSeq_length _ _ _ _ hraws
  have hlens : sizes.length = f.nCores - 1 := coreSeq_length _ _ _ _ hsz
  have hle : raws.length ≤ (offsetsFrom 0 sizes).length := by
    rw [offsetsFrom_length, hlenr, hlens]
    omega
  simp only [readDescendantIndices, hs, hn, hsz, hraws]
  rw [stitchLoop_eq _ _ 0 (Nat.zero_le _), totalLen_zipOff raws _ hle]
  simp [List.drop_replicate]

/-- Inversion for a successful first-progenitor read: the groups,
datasets, and sizes the read traversed, and the loop equation. -/
theorem readFP_some_inv (f : MasterFile) (s : Nat) (out : List Int)
    (h : readFirstprogenitorIndices f s = some out) :
    ∃ sG pG sizes raws, f.snaps[s]? = some sG ∧ s ≠ 0 ∧ f.snaps[s - 1]? = some pG ∧
      coreSeq pG.cores (fun c => c.recs.length) (f.nCores - 1) = some sizes ∧
      coreSeq sG.cores Core.fp f.nCores = some raws ∧
      stitchLoop (List.replicate sG.nGals 0) 0 (zipOff raws (offsetsFrom 0 sizes)) = some out := by
  rw [readFirstprogenitorIndices] at h
  cases hs : f.snaps[s]? with
  | none => simp only [hs] at h; exact Option.noConfusion h
  | some sG =>
    simp only [hs] at h
    by_cases h0 : s = 0
    · simp only [if_pos h0] at h
      exact Option.noConfusion h
    · simp only [if_neg h0] at h
      cases hp : f.snaps[s - 1]? with
      | none => simp only [hp] at h; exact Option.noConfusion h
      | some pG =>
        simp only [hp] at h
        cases hsz : coreSeq pG.cores (fun c => c.recs.length) (f.nCores - 1) with
        | none => simp only [hsz] at h; exact Option.noConfusion h
        | some sizes =>
          simp only [hsz] at h
          cases hraws : coreSeq sG.cores Core.fp f.nCores with
          | none => simp only [hraws] at h; exact Option.noConfusion h
          | some raws =>
            simp only [hraws] at h
            exact ⟨sG, pG, sizes, raws, rfl, h0, rfl, hsz, hraws, h⟩

/-- Inversion for a successful next-progenitor read. -/
theorem readNP_some_inv (f : MasterFile) (s : Nat) (out : List Int)
    (h : readNextprogenitorIndices f s = some out) :
    ∃ sG raws, f.snaps[s]? = some sG ∧
      coreSeq sG.cores Core.npi f.nCores = some raws ∧
      npLoop (List.replicate sG.nGals 0) 0 raws = some out := by
  rw [readNextprogenitorIndices] at h
  cases hs : f.snaps[s]? with
  | none => simp only [hs] at h; exact Option.noConfusion h
  | some sG =>
    simp only [hs] at h
    cases hraws : coreSeq sG.cores Core.npi f.nCores with
    | none => simp only [hraws] at h; exact Option.noConfusion h
    | some raws =>
      simp only [hraws] at h
      exact ⟨sG, raws, rfl, hraws, h⟩

/-- Inversion for a successful descendant read. -/
theorem readDesc_some_inv (f : MasterFile) (s : Nat) (out : List Int)
    (h : readDescendantIndices f s = some out) :
    ∃ sG nG sizes raws, f.snaps[s]? = some sG ∧ f.snaps[s + 1]? = some nG ∧
      coreSeq nG.cores (fun c => c.recs.length) (f.nCores - 1) = some sizes ∧
      coreSeq sG.cores Core.desc f.nCores = some raws ∧
      stitchLoop (List.replicate sG.nGals 0) 0 (zipOff raws (offsetsFrom 0 sizes)) = some out := by
  rw [readDescendantIndices] at h
  cases hs : f.snaps[s]? with
  | none => simp only [hs] at h; exact Option.noConfusion h
  | some sG =>
    simp only [hs] at h
    cases hn : f.snaps[s + 1]? with
    | none => simp only [hn] at h; exact Option.noConfusion h
    | some nG =>
      simp only [hn] at h
      cases hsz : coreSeq nG.cores (fun c => c.recs.length) (f.nCores - 1) with
      | none => simp only [hsz] at h; exact Option.noConfusion h
      | some sizes =>
        simp only [hsz] at h
        cases hraws : coreSeq sG.cores Core.desc f.nCores with
        | none => simp only [hraws] at h; exact Option.noConfusion h
        | some raws =>
          simp only [hraws] at h
          exact ⟨sG, nG, sizes, raws, rfl, rfl, hsz, hraws, h⟩

/-- Modelled from the spec: the per-element update of the claimed reference
implementation, which adds the partition's destination offset to every
non-sentinel value (sentinel being exactly `-1`). -/
def specApply (off : Nat) (v : Int) : Int :=
  if v = -1 then v else v + off

/-- Modelled from the spec: the reference implementation that concatenates
all partitions' records into one global space first and reads links there:
partition `i`'s slice of the output holds the raw per-partition values with
the cumulative destination-snapshot offset
`offset[i] = destSizes[0] + ... + destSizes[i-1]` added to every
non-sentinel value. -/
def stitchRef (raws : List (List Int)) (destSizes : List Nat) : List Int :=
  ((zipOff raws (offsetsFrom 0 destSizes)).map (fun p => p.1.map (specApply p.2))).flatten

theorem stitchedFlat_eq_ref : ∀ (raws : List (List Int)) (offs : List Nat),
    (∀ r ∈ raws, ∀ v ∈ r, -1 ≤ v) →
    stitchedFlat (zipOff raws offs) =
      ((zipOff raws offs).map (fun p => p.1.map (specApply p.2))).flatten
  | [], offs, _ => by cases offs <;> rfl
  | r :: rest, [], _ => rfl
  | r :: rest, o :: os, hvals => by
    rw [zipOff, stitchedFlat_cons, List.map_cons, List.flatten_cons,
      stitchedFlat_eq_ref rest os (fun r2 h2 v hv => hvals r2 (List.mem_cons_of_mem _ h2) v hv),
      List.map_congr_left (fun v hv => ?_)]
    have hge : -1 ≤ v := hvals r (List.mem_cons_self _ _) v hv
    rw [applyOffset, specApply]
    by_cases hm : v = -1
    · rw [if_pos hm, if_neg (by omega)]
    · rw [if_neg hm, if_pos (by omega)]

theorem offsets_take_agree (sizes : List Nat) (k i : Nat) (hik : i ≤ k)
    (hk : k ≤ sizes.length) :
    (offsetsFrom 0 (sizes.take k))[i]? = (offsetsFrom 0 sizes)[i]? := by
  rw [offsetsFrom_getElem? 0 (sizes.take k) i (by rw [List.length_take]; omega),
    offsetsFrom_getElem? 0 sizes i (by omega), List.take_take, Nat.min_eq_left hik]

theorem stitch_out_pos (raws : List (List Int)) (offs : List Nat) (n : Nat) (out : List Int)
    (hlen : raws.length ≤ offs.length)
    (hloop : stitchLoop (List.replicate n 0) 0 (zipOff raws offs) = some out)
    (i j : Nat) (r : List Int) (v : Int) (hr : raws[i]? = some r) (hv : r[j]? = some v) :
    ∃ o, offs[i]? = some o ∧ out[sumLens (raws.take i) + j]? = some (applyOffset o v) := by
  rw [stitchLoop_eq _ _ 0 (Nat.zero_le _)] at hloop
  by_cases hfit : 0 + totalLen (zipOff raws offs) ≤ (List.replicate n (0 : Int)).length
  · rw [if_pos hfit, Option.some_inj] at hloop
    obtain ⟨o, ho, hpos⟩ := stitchedFlat_pos raws offs i j r v hlen hr hv
    refine ⟨o, ho, ?_⟩
    have hjr : j < r.length := getElem?_lt r j v hv
    have hbound : sumLens (raws.take i) + j < (stitchedFlat (zipOff raws offs)).length := by
      rw [stitchedFlat_length_zipOff raws offs hlen]
      exact sumLens_take_bound raws i j r hr hjr
    rw [← hloop, List.take_zero, List.nil_append, List.getElem?_append_left hbound]
    exact hpos
  · rw [if_neg hfit] at hloop
    exact Option.noConfusion hloop

theorem readLink_out_pos (f : MasterFile) (snapshot : Nat) (kind : LinkKind)
    (out : List Int) (sG : Snapshot) (raws : List (List Int)) (i j : Nat)
    (r : List Int) (v : Int)
    (hout : readLinkIndices f snapshot kind = some out)
    (hs : f.snaps[snapshot]? = some sG)
    (hraws : coreSeq sG.cores (linkSel kind) f.nCores = some raws)
    (hr : raws[i]? = some r) (hv : r[j]? = some v) :
    ∃ o, out[sumLens (raws.take i) + j]? = some (applyOffset o v) := by
  cases kind with
  | firstProgenitor =>
    obtain ⟨sG2, pG, sizes, raws2, hs2, h0, hp, hsz, hraws2, hloop⟩ :=
      readFP_some_inv f snapshot out hout
    rw [hs] at hs2
    injection hs2 with hsG
    subst hsG
    simp only [linkSel] at hraws
    rw [hraws] at hraws2
    injection hraws2 with hR
    subst hR
    have hlenr : raws.length = f.nCores := coreSeq_length _ _ _ _ hraws
    have hlens : sizes.length = f.nCores - 1 := coreSeq_length _ _ _ _ hsz
    have hlen : raws.length ≤ (offsetsFrom 0 sizes).length := by
      rw [offsetsFrom_length]
      omega
    obtain ⟨o, _, hpos⟩ := stitch_out_pos raws _ sG.nGals out hlen hloop i j r v hr hv
    exact ⟨o, hpos⟩
  | nextProgenitor =>
    obtain ⟨sG2, raws2, hs2, hraws2, hloop⟩ := readNP_some_inv f snapshot out hout
    rw [hs] at hs2
    injection hs2 with hsG
    subst hsG
    simp only [linkSel] at hraws
    rw [hraws] at hraws2
    injection hraws2 with hR
    subst hR
    rw [npLoop_eq_stitchLoop] at hloop
    have hlen : raws.length ≤ (offsetsFrom 0 (raws.map List.length)).length := by
      rw [offsetsFrom_length, List.length_map]
      omega
    obtain ⟨o, _, hpos⟩ := stitch_out_pos raws _ sG.nGals out hlen hloop i j r v hr hv
    exact ⟨o, hpos⟩
  | descendant =>
    obtain ⟨sG2, nG, sizes, raws2, hs2, hn, hsz, hraws2, hloop⟩ :=
      readDesc_some_inv f snapshot out hout
    rw [hs] at hs2
    injection hs2 with hsG
    subst hsG
    simp only [linkSel] at hraws
    rw [hraws] at hraws2
    injection hraws2 with hR
    subst hR
    have hlenr : raws.length = f.nCores := coreSeq_length _ _ _ _ hraws
    have hlens : sizes.length = f.nCores - 1 := coreSeq_length _ _ _ _ hsz
    have hlen : raws.length ≤ (offsetsFrom 0 sizes).length := by
      rw [offsetsFrom_length]
      omega
    obtain ⟨o, _, hpos⟩ := stitch_out_pos raws _ sG.nGals out hlen hloop i j r v hr hv
    exact ⟨o, hpos⟩

/-- C1: for every snapshot and every link kind, under the data model the
claim presumes (all group and dataset lookups succeed, raw link values are
`≥ -1`, each partition's link dataset is sized by that partition's galaxy
count, and the sizes total the declared galaxy count), the stitched link
array equals the spec's reference implementation `stitchRef`, whose
destination sizes are the previous snapshot's partition sizes for
FirstProgenitor, the snapshot's own for NextProgenitor, and the next
snapshot's for Descendant. -/
theorem C1_stitch_matches_reference :
    (∀ (f : MasterFile) (snapshot : Nat) (sG pG : Snapshot)
       (prevSizes ownSizes : List Nat) (raws : List (List Int)),
      f.snaps[snapshot]? = some sG →
      snapshot ≠ 0 →
      f.snaps[snapshot - 1]? = some pG →
      coreSeq pG.cores (fun c => c.recs.length) f.nCores = some prevSizes →
      coreSeq sG.cores (fun c => c.recs.length) f.nCores = some ownSizes →
      coreSeq sG.cores Core.fp f.nCores = some raws →
      raws.map List.length = ownSizes →
      (∀ r ∈ raws, ∀ v ∈ r, -1 ≤ v) →
      sumLens raws = sG.nGals →
      readFirstprogenitorIndices f snapshot = some (stitchRef raws prevSizes)) ∧
    (∀ (f : MasterFile) (snapshot : Nat) (sG : Snapshot)
       (ownSizes : List Nat) (raws : List (List Int)),
      f.snaps[snapshot]? = some sG →
      coreSeq sG.cores (fun c => c.recs.length) f.nCores = some ownSizes →
      coreSeq sG.cores Core.npi f.nCores = some raws →
      raws.map List.length = ownSizes →
      (∀ r ∈ raws, ∀ v ∈ r, -1 ≤ v) →
      sumLens raws = sG.nGals →
      readNextprogenitorIndices f snapshot = some (stitchRef raws ownSizes)) ∧
    (∀ (f : MasterFile) (snapshot : Nat) (sG nG : Snapshot)
       (nextSizes ownSizes : List Nat) (raws : List (List Int)),
      f.snaps[snapshot]? = some sG →
      f.snaps[snapshot + 1]? = some nG →
      coreSeq nG.cores (fun c => c.recs.length) f.nCores = some nextSizes →
      coreSeq sG.cores (fun c => c.recs.length) f.nCores = some ownSizes →
      coreSeq sG.cores Core.desc f.nCores = some raws →
      raws.map List.length = ownSizes →
      (∀ r ∈ raws, ∀ v ∈ r, -1 ≤ v) →
      sumLens raws = sG.nGals →
      readDescendantIndices f snapshot = some (stitchRef raws nextSizes)) := by
  refine ⟨?_, ?_, ?_⟩
  · intro f snapshot sG pG prevSizes ownSizes raws hs h0 hp hprev hown hraws hlens hvals hsum
    have hsz : coreSeq pG.cores (fun c => c.recs.length) (f.nCores - 1)
        = some (prevSizes.take (f.nCores - 1)) :=
      coreSeq_mono _ _ _ _ _ (Nat.sub_le _ _) hprev
    have hlenr : raws.length = f.nCores := coreSeq_length _ _ _ _ hraws
    have hlenp : prevSizes.length = f.nCores := coreSeq_length _ _ _ _ hprev
    have hzip : zipOff raws (offsetsFrom 0 (prevSizes.take (f.nCores - 1)))
        = zipOff raws (offsetsFrom 0 prevSizes) := by
      apply zipOff_congr
      intro i hi
      exact offsets_take_agree prevSizes (f.nCores - 1) i (by omega) (by omega)
    rw [readFP_eq f snapshot sG pG _ raws hs h0 hp hsz hraws, if_pos (le_of_eq hsum),
      hsum, Nat.sub_self, List.replicate_zero, List.append_nil, hzip,
      stitchedFlat_eq_ref raws _ hvals, stitchRef]
  · intro f snapshot sG ownSizes raws hs hown hraws hlens hvals hsum
    rw [readNP_eq f snapshot sG raws hs hraws, if_pos (le_of_eq hsum),
      hsum, Nat.sub_self, List.replicate_zero, List.append_nil,
      stitchedFlat_eq_ref raws _ hvals, hlens, stitchRef]
  · intro f snapshot sG nG nextSizes ownSizes raws hs hn hnext hown hraws hlens hvals hsum
    have hsz : coreSeq nG.cores (fun c => c.recs.length) (f.nCores - 1)
        = some (nextSizes.take (f.nCores - 1)) :=
      coreSeq_mono _ _ _ _ _ (Nat.sub_le _ _) hnext
    have hlenr : raws.length = f.nCores := coreSeq_length _ _ _ _ hraws
    have hlenp : nextSizes.length = f.nCores := coreSeq_length _ _ _ _ hnext
    have hzip : zipOff raws (offsetsFrom 0 (nextSizes.take (f.nCores - 1)))
        = zipOff raws (offsetsFrom 0 nextSizes) := by
      apply zipOff_congr
      intro i hi
      exact offsets_take_agree nextSizes (f.nCores - 1) i (by omega) (by omega)
    rw [readDesc_eq f snapshot sG nG _ raws hs hn hsz hraws, if_pos (le_of_eq hsum),
      hsum, Nat.sub_self, List.replicate_zero, List.append_nil, hzip,
      stitchedFlat_eq_ref raws _ hvals, stitchRef]

/-- C2: for every catalog, snapshot and link kind, a raw per-partition
link element equal to the sentinel `-1` appears as `-1` at the
corresponding position of the stitched output (the sum of the earlier
partitions' dataset sizes plus its local position); no offset is added to
a sentinel. -/
theorem C2_sentinel_preserved (f : MasterFile) (snapshot : Nat) (kind : LinkKind)
    (out : List Int) (sG : Snapshot) (raws : List (List Int)) (i j : Nat) (r : List Int)
    (hout : readLinkIndices f snapshot kind = some out)
    (hs : f.snaps[snapshot]? = some sG)
    (hraws : coreSeq sG.cores (linkSel kind) f.nCores = some raws)
    (hr : raws[i]? = some r) (hv : r[j]? = some (-1)) :
    out[sumLens (raws.take i) + j]? = some (-1) := by
  obtain ⟨o, hpos⟩ := readLink_out_pos f snapshot kind out sG raws i j r (-1) hout hs hraws hr hv
  rw [hpos, applyOffset, if_neg (by omega)]

/-- C9: the stitcher leaves every raw link value strictly less than `-1`
unchanged in the output as well: the offset is added only to elements
strictly greater than `-1`, so every negative raw value passes through
un-offset, for every link kind. -/
theorem C9_below_sentinel_unchanged (f : MasterFile) (snapshot : Nat) (kind : LinkKind)
    (out : List Int) (sG : Snapshot) (raws : List (List Int)) (i j : Nat)
    (r : List Int) (v : Int)
    (hout : readLinkIndices f snapshot kind = some out)
    (hs : f.snaps[snapshot]? = some sG)
    (hraws : coreSeq sG.cores (linkSel kind) f.nCores = some raws)
    (hr : raws[i]? = some r) (hv : r[j]? = some v) (hneg : v < -1) :
    out[sumLens (raws.take i) + j]? = some v := by
  obtain ⟨o, hpos⟩ := readLink_out_pos f snapshot kind out sG raws i j r v hout hs hraws hr hv
  rw [hpos, applyOffset, if_neg (by omega)]

/-- C7 (amended): with all lookups succeeding, the stitcher fails exactly
when the per-partition link datasets overflow the snapshot's declared
total; when they sum to the total or less it succeeds (a shortfall is
silently padded with zeros), for each of the three kinds. -/
theorem C7_amended_failure_iff_overflow :
    (∀ (f : MasterFile) (snapshot : Nat) (sG pG : Snapshot)
       (sizes : List Nat) (raws : List (List Int)),
      f.snaps[snapshot]? = some sG →
      snapshot ≠ 0 →
      f.snaps[snapshot - 1]? = some pG →
      coreSeq pG.cores (fun c => c.recs.length) (f.nCores - 1) = some sizes →
      coreSeq sG.cores Core.fp f.nCores = some raws →
      ((readFirstprogenitorIndices f snapshot).isSome ↔ sumLens raws ≤ sG.nGals)) ∧
    (∀ (f : MasterFile) (snapshot : Nat) (sG : Snapshot) (raws : List (List Int)),
      f.snaps[snapshot]? = some sG →
      coreSeq sG.cores Core.npi f.nCores = some raws →
      ((readNextprogenitorIndices f snapshot).isSome ↔ sumLens raws ≤ sG.nGals)) ∧
    (∀ (f : MasterFile) (snapshot : Nat) (sG nG : Snapshot)
       (sizes : List Nat) (raws : List (List Int)),
      f.snaps[snapshot]? = some sG →
      f.snaps[snapshot + 1]? = some nG →
      coreSeq nG.cores (fun c => c.recs.length) (f.nCores - 1) = some sizes →
      coreSeq sG.cores Core.desc f.nCores = some raws →
      ((readDescendantIndices f snapshot).isSome ↔ sumLens raws ≤ sG.nGals)) := by
  refine ⟨?_, ?_, ?_⟩
  · intro f snapshot sG pG sizes raws hs h0 hp hsz hraws
    rw [readFP_eq f snapshot sG pG sizes raws hs h0 hp hsz hraws]
    by_cases hc : sumLens raws ≤ sG.nGals
    · rw [if_pos hc]
      simpa using hc
    · rw [if_neg hc]
      simpa using hc
  · intro f snapshot sG raws hs hraws
    rw [readNP_eq f snapshot sG raws hs hraws]
    by_cases hc : sumLens raws ≤ sG.nGals
    · rw [if_pos hc]
      simpa using hc
    · rw [if_neg hc]
      simpa using hc
  · intro f snapshot sG nG sizes raws hs hn hsz hraws
    rw [readDesc_eq f snapshot sG nG sizes raws hs hn hsz hraws]
    by_cases hc : sumLens raws ≤ sG.nGals
    · rw [if_pos hc]
      simpa using hc
    · rw [if_neg hc]
      simpa using hc

/-- C6 (amended): the stitcher fails with a lookup error for
FirstProgenitor at snapshot 0 (the group below snapshot 0 never exists)
and for Descendant at a snapshot with no successor; NextProgenitor touches
no adjacent snapshot and succeeds at snapshot 0 whenever the snapshot's
own groups exist and its datasets fit the declared total. -/
theorem C6_amended_boundary_failures :
    (∀ f : MasterFile, readFirstprogenitorIndices f 0 = none) ∧
    (∀ (f : MasterFile) (snapshot : Nat),
      f.snaps[snapshot + 1]? = none → readDescendantIndices f snapshot = none) ∧
    (∀ (f : MasterFile) (sG : Snapshot) (raws : List (List Int)),
      f.snaps[0]? = some sG →
      coreSeq sG.cores Core.npi f.nCores = some raws →
      sumLens raws ≤ sG.nGals →
      (readNextprogenitorIndices f 0).isSome) := by
  refine ⟨readFP_zero, ?_, ?_⟩
  · intro f snapshot hn
    cases hs : f.snaps[snapshot]? with
    | none => simp [readDescendantIndices, hs]
    | some sG => simp [readDescendantIndices, hs, hn]
  · intro f sG raws hs hraws hsum
    rw [readNP_eq f 0 sG raws hs hraws, if_pos hsum]
    simp

/-- The exception classes `galaxy_history` and its helpers can raise:
h5py `KeyError` for a missing group, numpy/h5py `IndexError`-style failures
(out-of-bounds writes, empty snapshots, missing galaxy id, mismatched
`read_direct` selections), numpy `ValueError` (allocating a negative-sized
array), and the `Warning` exception raised for a galaxy with no
progenitors. -/
inductive GHError where
  | keyError
  | indexError
  | valueError
  | warning
deriving DecidableEq, Repr

/-- The two shapes `galaxy_history` returns: the bare history array when
`future_snapshot == snapshot`, or the pair `(history, merged_snapshot)`
otherwise.  A history slot is `none` while it still holds the zero-filled
record the allocation produced, and `some r` once the walker stored a
fetched record into it. -/
inductive GHResult where
  | historyOnly (history : List (Option GalRec))
  | withMerge (history : List (Option GalRec)) (mergedSnapshot : Int)
deriving DecidableEq, Repr

/-- Numpy integer indexing of a 1-d array: a negative index wraps once
around the end; anything still out of bounds raises `IndexError`. -/
def npGet (l : List Int) (i : Int) : Except GHError Int :=
  if 0 ≤ i then
    match l[i.toNat]? with
    | some v => .ok v
    | none => .error .indexError
  else
    if 0 ≤ (l.length : Int) + i then
      match l[((l.length : Int) + i).toNat]? with
      | some v => .ok v
      | none => .error .indexError
    else .error .indexError

/-- Numpy element assignment `history[i] = rec`: `IndexError` when the
(non-negative) index is out of bounds. -/
def setE (l : List (Option GalRec)) (i : Nat) (v : Option GalRec) :
    Except GHError (List (Option GalRec)) :=
  if i < l.length then .ok (l.set i v) else .error .indexError

/-- A record slot numpy's `np.empty` left uninitialised.  No claim
exercises this value; it stands for the garbage bytes the code would hand
back for an index no core selects. -/
def uninitRec : GalRec := { id := 0 }

/-- Aggregate record list of a snapshot: the `Galaxies` datasets of all
cores concatenated in core order (the global index space). -/
def allGals (s : Snapshot) : List GalRec :=
  (s.cores.map Core.recs).flatten

/-- `read_gals(fname, snapshot=snap, indices=[ind])`, the single-record
fetch of the walker.  It opens the snapshot group, raises `IndexError` on
an empty snapshot (`NGalaxies == 0`), and selects the record whose global
position is `ind` by masking each core's slice; an index no core selects
(negative, or at least the actual total) leaves the 1-element output
buffer uninitialised and is returned without error. -/
def fetchRecordE (f : MasterFile) (snap : Nat) (ind : Int) : Except GHError GalRec :=
  match f.snaps[snap]? with
  | none => .error .keyError
  | some s =>
    if s.nGals = 0 then .error .indexError
    else if 0 ≤ ind then .ok (((allGals s)[ind.toNat]?).getD uninitRec)
    else .ok uninitRec

/-- The per-core copy loop of a full `read_gals` read: each non-empty core
is copied wholly into the output buffer of size `NGalaxies`; a core that
would overflow the buffer makes `read_direct` fail; the loop breaks once
the buffer is full, and a shortfall leaves uninitialised entries at the
tail. -/
def readGalsLoop (ngals : Nat) : List (List GalRec) → List GalRec → Option (List GalRec)
  | [], acc => some (acc ++ List.replicate (ngals - acc.length) uninitRec)
  | recs :: rest, acc =>
    if recs.length = 0 then readGalsLoop ngals rest acc
    else if acc.length + recs.length ≤ ngals then
      if ngals ≤ acc.length + recs.length then some (acc ++ recs)
      else readGalsLoop ngals rest (acc ++ recs)
    else none

/-- `read_gals(fname, snapshot=snap)` with no index selection: open the
snapshot group, raise `IndexError` when the `NGalaxies` attribute is zero,
then copy every core's records into a buffer of that size. -/
def readGalsAllE (f : MasterFile) (snap : Nat) : Except GHError (List GalRec) :=
  match f.snaps[snap]? with
  | none => .error .keyError
  | some s =>
    if s.nGals = 0 then .error .indexError
    else
      match readGalsLoop s.nGals (s.cores.map Core.recs) [] with
      | none => .error .indexError
      | some gals => .ok gals

/-- One iteration of the backward loop of `galaxy_history`: store the
record at `(snap, ind)` into the history, look up the stitched
FirstProgenitor at `snap`, stop on the sentinel, otherwise hand the new
index to the continuation (the iteration for `snap - 1`, or loop exit when
`snap = 0`). -/
def backwardBody (f : MasterFile) (snap : Nat) (ind : Int) (hist : List (Option GalRec))
    (cont : Int → List (Option GalRec) → Except GHError (List (Option GalRec))) :
    Except GHError (List (Option GalRec)) :=
  match fetchRecordE f snap ind with
  | .error e => .error e
  | .ok r =>
    match setE hist snap (some r) with
    | .error e => .error e
    | .ok hist2 =>
      match readFirstprogenitorIndices f snap with
      | none => .error .keyError
      | some arr =>
        match npGet arr ind with
        | .error e => .error e
        | .ok ind2 =>
          if ind2 = -1 then .ok hist2
          else cont ind2 hist2

/-- The backward loop `for snap in range(snapshot - 1, -1, -1)` of
`galaxy_history`, entered at its highest snapshot. -/
def backwardLoop (f : MasterFile) : Nat → Int → List (Option GalRec) →
    Except GHError (List (Option GalRec))
  | 0, ind, hist => backwardBody f 0 ind hist (fun _ hist2 => .ok hist2)
  | snap + 1, ind, hist => backwardBody f (snap + 1) ind hist (backwardLoop f snap)

/-- The forward loop `for snap in range(snapshot + 1, future_snapshot + 1)`
of `galaxy_history`, with `steps` iterations left: follow the previous
snapshot's stitched Descendant link from the previous index, stop on the
sentinel, check the candidate descendant's stitched FirstProgenitor when
strictly before `future` and record the first mismatch in
`merged`, then store the descendant's record and advance. -/
def forwardSteps (f : MasterFile) (future : Nat) : Nat → Nat → Int → Int →
    List (Option GalRec) → Except GHError (List (Option GalRec) × Int)
  | _, 0, _, merged, hist => .ok (hist, merged)
  | snap, steps + 1, ind, merged, hist =>
    match readDescendantIndices f (snap - 1) with
    | none => .error .keyError
    | some dArr =>
      match npGet dArr ind with
      | .error e => .error e
      | .ok d =>
        if d = -1 then .ok (hist, merged)
        else
          match (if snap < future then
                  match readFirstprogenitorIndices f snap with
                  | none => Except.error GHError.keyError
                  | some fpArr =>
                    match npGet fpArr d with
                    | .error e => Except.error e
                    | .ok fp =>
                      Except.ok (if fp ≠ ind ∧ merged = -1 then (snap : Int) else merged)
                else Except.ok merged) with
          | .error e => .error e
          | .ok merged2 =>
            match fetchRecordE f snap d with
            | .error e => .error e
            | .ok r =>
              match setE hist snap (some r) with
              | .error e => .error e
              | .ok hist2 => forwardSteps f future (snap + 1) steps d merged2 hist2

/-- The effective forward horizon: the default argument `-1` means "no
future", which the code replaces by the start snapshot itself. -/
def effectiveFuture (snapshot : Nat) (futureSnapshot : Int) : Int :=
  if futureSnapshot = -1 then (snapshot : Int) else futureSnapshot

/-- `galaxy_history(fname, gal_id, snapshot, future_snapshot)`: read the
start snapshot's galaxies, locate `gal_id`, allocate the history buffer of
`future_snapshot + 1` slots, store the starting record, look up the
stitched FirstProgenitor at the start snapshot and raise `Warning` on the
sentinel, walk backward, then (when a future was requested) walk forward
tracking the merge marker, and return the history alone or the pair. -/
def galaxy_history (f : MasterFile) (galId : Int) (snapshot : Nat)
    (futureSnapshot : Int) : Except GHError GHResult :=
  match readGalsAllE f snapshot with
  | .error e => .error e
  | .ok gals =>
    match gals.findIdx? (fun g => g.id = galId) with
    | none => .error .indexError
    | some startInd =>
      let future := effectiveFuture snapshot futureSnapshot
      if future + 1 < 0 then .error .valueError
      else
        match setE (List.replicate (future + 1).toNat none) snapshot
            (some ((gals[startInd]?).getD uninitRec)) with
        | .error e => .error e
        | .ok hist1 =>
          match readFirstprogenitorIndices f snapshot with
          | none => .error .keyError
          | some fpArr =>
            match npGet fpArr (startInd : Int) with
            | .error e => .error e
            | .ok ind0 =>
              if ind0 = -1 then .error .warning
              else
                match (match snapshot with
                       | 0 => Except.ok hist1
                       | s + 1 => backwardLoop f s ind0 hist1) with
                | .error e => .error e
                | .ok hist2 =>
                  if future = (snapshot : Int) then .ok (.historyOnly hist2)
                  else
                    match forwardSteps f future.toNat (snapshot + 1)
                        (future.toNat - snapshot) (startInd : Int) (-1) hist2 with
                    | .error e => .error e
                    | .ok (hist3, merged) => .ok (.withMerge hist3 merged)

/-- The number of populated (walker-written) slots of a history buffer. -/
def countPopulated (hist : List (Option GalRec)) : Nat :=
  hist.countP (fun o => o.isSome)

/-- Mirror of the first-progenitor chain the backward loop walks: starting
at `(snap, ind)`, the snapshot at which the stitched FirstProgenitor value
is `-1`, or `none` when a stitch or lookup on the way fails (in particular
always at snapshot 0, whose stitch opens the non-existent group below it). -/
def formBody (f : MasterFile) (snap : Nat) (ind : Int) (cont : Int → Option Nat) :
    Option Nat :=
  match readFirstprogenitorIndices f snap with
  | none => none
  | some arr =>
    match npGet arr ind with
    | .error _ => none
    | .ok v => if v = -1 then some snap else cont v

/-- The stop snapshot of the backward chain from `(snap, ind)`. -/
def formationOf (f : MasterFile) : Nat → Int → Option Nat
  | 0, ind => formBody f 0 ind (fun _ => none)
  | snap + 1, ind => formBody f (snap + 1) ind (formationOf f snap)

/-- Mirror of the forward loop's merge detector: whether any step reached
before the chain breaks (and strictly before `future`) sees a candidate
descendant whose stitched FirstProgenitor does not point back at the index
the walker arrived from.  Error paths return `false`; they make the walk
itself fail, so they never witness a divergence. -/
def anyDivergence (f : MasterFile) (future : Nat) : Nat → Nat → Int → Bool
  | _, 0, _ => false
  | snap, steps + 1, ind =>
    match readDescendantIndices f (snap - 1) with
    | none => false
    | some dArr =>
      match npGet dArr ind with
      | .error _ => false
      | .ok d =>
        if d = -1 then false
        else
          if snap < future then
            match readFirstprogenitorIndices f snap with
            | none => false
            | some fpArr =>
              match npGet fpArr d with
              | .error _ => false
              | .ok fp =>
                if fp ≠ ind then true else anyDivergence f future (snap + 1) steps d
          else anyDivergence f future (snap + 1) steps d

/-- Example catalog: three snapshots over two cores, with a merger of the
galaxies 10 and 11 into 20, a chain 32 - 22 - 12, and a no-progenitor
galaxy 31. -/
def exCat : MasterFile :=
  { nCores := 2
    snaps :=
      [ { nGals := 3
          cores :=
            [ { recs := [{ id := 10 }, { id := 11 }], fp := [-1, -1],
                npi := [-2, 0], desc := [0, 0] },
              { recs := [{ id := 12 }], fp := [-1], npi := [-1], desc := [1] } ] },
        { nGals := 3
          cores :=
            [ { recs := [{ id := 20 }], fp := [0], npi := [-1], desc := [0] },
              { recs := [{ id := 21 }, { id := 22 }], fp := [-1, -1],
                npi := [-1, -1], desc := [-1, 0] } ] },
        { nGals := 3
          cores :=
            [ { recs := [{ id := 30 }, { id := 31 }], fp := [0, -1],
                npi := [-1, -1], desc := [-1, -1] },
              { recs := [{ id := 32 }], fp := [1], npi := [-1], desc := [-1] } ] } ] }

/-- Example catalog for the forward walk: four snapshots on one core, a
single chain 100 - 200 - 300 - 400 whose backward chain from 300 stops at
snapshot 1. -/
def exCatF : MasterFile :=
  { nCores := 1
    snaps :=
      [ { nGals := 1
          cores := [ { recs := [{ id := 100 }], fp := [-1], npi := [-1], desc := [0] } ] },
        { nGals := 1
          cores := [ { recs := [{ id := 200 }], fp := [-1], npi := [-1], desc := [0] } ] },
        { nGals := 1
          cores := [ { recs := [{ id := 300 }], fp := [0], npi := [-1], desc := [0] } ] },
        { nGals := 1
          cores := [ { recs := [{ id := 400 }], fp := [0], npi := [-1], desc := [-1] } ] } ] }

/-- Example catalog whose snapshot 1 declares three galaxies while its only
link dataset holds a single value. -/
def exCatShort : MasterFile :=
  { nCores := 1
    snaps :=
      [ { nGals := 1
          cores := [ { recs := [{ id := 1 }], fp := [-1], npi := [-1], desc := [0] } ] },
        { nGals := 3
          cores := [ { recs := [{ id := 2 }], fp := [0], npi := [-1], desc := [-1] } ] } ] }

/-- Every snapshot group present in the file declares at least one galaxy
(`read_gals` raises on an empty snapshot, so the walker only completes on
such files). -/
def PositiveCounts (f : MasterFile) : Prop :=
  ∀ s ∈ f.snaps, 0 < s.nGals

instance (f : MasterFile) : Decidable (PositiveCounts f) :=
  List.decidableBAll _ f.snaps

theorem countPopulated_replicate (n : Nat) :
    countPopulated (List.replicate n none) = 0 := by
  induction n with
  | zero => rfl
  | succ k ih =>
    rw [List.replicate_succ, countPopulated, List.countP_cons]
    simp only [countPopulated] at ih
    simp [ih]

theorem countPopulated_set (l : List (Option GalRec)) (k : Nat) (r : GalRec)
    (h : l[k]? = some none) :
    countPopulated (l.set k (some r)) = countPopulated l + 1 := by
  obtain ⟨hk, hval⟩ := List.getElem?_eq_some.mp h
  rw [countPopulated, countPopulated, List.countP_set _ _ _ _ hk, hval]
  simp

theorem fetchRecordE_ok (f : MasterFile) (snap : Nat) (ind : Int) (s : Snapshot)
    (hs : f.snaps[snap]? = some s) (hn : s.nGals ≠ 0) :
    ∃ r, fetchRecordE f snap ind = .ok r := by
  simp only [fetchRecordE, hs, if_neg hn]
  by_cases hi : 0 ≤ ind
  · exact ⟨_, by rw [if_pos hi]⟩
  · exact ⟨_, by rw [if_neg hi]⟩

theorem formationOf_zero (f : MasterFile) (ind : Int) : formationOf f 0 ind = none := by
  rw [formationOf, formBody, readFP_zero]

theorem formationOf_le (f : MasterFile) : ∀ (snap : Nat) (ind : Int) (m : Nat),
    formationOf f snap ind = some m → m ≤ snap
  | 0, ind, m, h => by
    rw [formationOf_zero] at h
    exact Option.noConfusion h
  | snap + 1, ind, m, h => by
    rw [formationOf, formBody] at h
    cases harr : readFirstprogenitorIndices f (snap + 1) with
    | none => simp only [harr] at h; exact Option.noConfusion h
    | some arr =>
      simp only [harr] at h
      cases hg : npGet arr ind with
      | error e => simp only [hg] at h; exact Option.noConfusion h
      | ok v =>
        simp only [hg] at h
        by_cases hv : v = -1
        · simp only [if_pos hv, Option.some_inj] at h
          omega
        · simp only [if_neg hv] at h
          have := formationOf_le f snap v m h
          omega

/-- When the mirrored chain stops at `m` (every stitch and lookup on the
way succeeding, the value at `m` being the sentinel), the backward loop of
`galaxy_history` succeeds and populates exactly the slots `m .. snap` on
top of its input history. -/
theorem backwardLoop_ok (f : MasterFile) (hpos : PositiveCounts f) :
    ∀ (snap : Nat) (ind : Int) (hist : List (Option GalRec)) (m : Nat),
    formationOf f snap ind = some m →
    snap < hist.length →
    (∀ k, m ≤ k → k ≤ snap → hist[k]? = some none) →
    ∃ hist2, backwardLoop f snap ind hist = .ok hist2 ∧
      hist2.length = hist.length ∧
      countPopulated hist2 = countPopulated hist + (snap + 1 - m)
  | 0, ind, hist, m, hform, _, _ => by
    rw [formationOf_zero] at hform
    exact Option.noConfusion hform
  | snap + 1, ind, hist, m, hform, hlen, hinv => by
    rw [formationOf, formBody] at hform
    cases harr : readFirstprogenitorIndices f (snap + 1) with
    | none => simp only [harr] at hform; exact Option.noConfusion hform
    | some arr =>
      simp only [harr] at hform
      cases hg : npGet arr ind with
      | error e => simp only [hg] at hform; exact Option.noConfusion hform
      | ok v =>
        simp only [hg] at hform
        obtain ⟨sG, pG, sizes, raws, hs, _, _, _, _, _⟩ :=
          readFP_some_inv f (snap + 1) arr harr
        have hngals : sG.nGals ≠ 0 := by
          have := hpos sG (List.getElem?_mem hs)
          omega
        obtain ⟨r, hr⟩ := fetchRecordE_ok f (snap + 1) ind sG hs hngals
        rw [backwardLoop, backwardBody]
        simp only [hr, setE, if_pos hlen, harr, hg]
        by_cases hv : v = -1
        · simp only [if_pos hv, Option.some_inj] at hform
          subst hform
          rw [if_pos hv]
          refine ⟨hist.set (snap + 1) (some r), rfl, by rw [List.length_set], ?_⟩
          rw [countPopulated_set hist (snap + 1) r
            (hinv (snap + 1) (Nat.le_refl _) (Nat.le_refl _))]
          omega
        · simp only [if_neg hv] at hform
          rw [if_neg hv]
          have hm_le : m ≤ snap := formationOf_le f snap v m hform
          have hinv2 : ∀ k, m ≤ k → k ≤ snap →
              (hist.set (snap + 1) (some r))[k]? = some none := by
            intro k hmk hks
            rw [List.getElem?_set_ne (by omega)]
            exact hinv k hmk (by omega)
          obtain ⟨hist2, hb, hl, hc⟩ := backwardLoop_ok f hpos snap v
            (hist.set (snap + 1) (some r)) m hform
            (by rw [List.length_set]; omega) hinv2
          refine ⟨hist2, hb, by rw [hl, List.length_set], ?_⟩
          rw [hc, countPopulated_set hist (snap + 1) r
            (hinv (snap + 1) (by omega) (by omega))]
          omega

/-- When the mirrored chain fails (always including a chain that walks all
the way down to snapshot 0, whose first-progenitor stitch cannot open the
group below it), the backward loop of `galaxy_history` raises. -/
theorem backwardLoop_err (f : MasterFile) :
    ∀ (snap : Nat) (ind : Int) (hist : List (Option GalRec)),
    formationOf f snap ind = none →
    ∃ e, backwardLoop f snap ind hist = .error e
  | 0, ind, hist, _ => by
    rw [backwardLoop, backwardBody]
    cases hr : fetchRecordE f 0 ind with
    | error e => exact ⟨e, rfl⟩
    | ok r =>
      cases hset : setE hist 0 (some r) with
      | error e => simp only [hset]; exact ⟨e, rfl⟩
      | ok h2 =>
        simp only [hset, readFP_zero]
        exact ⟨.keyError, rfl⟩
  | snap + 1, ind, hist, hform => by
    rw [formationOf, formBody] at hform
    rw [backwardLoop, backwardBody]
    cases hr : fetchRecordE f (snap + 1) ind with
    | error e => exact ⟨e, rfl⟩
    | ok r =>
      cases hset : setE hist (snap + 1) (some r) with
      | error e => simp only [hset]; exact ⟨e, rfl⟩
      | ok h2 =>
        simp only [hset]
        cases harr : readFirstprogenitorIndices f (snap + 1) with
        | none => simp only [harr]; exact ⟨.keyError, rfl⟩
        | some arr =>
          simp only [harr] at hform ⊢
          cases hg : npGet arr ind with
          | error e => simp only [hg]; exact ⟨e, rfl⟩
          | ok v =>
            simp only [hg] at hform ⊢
            by_cases hv : v = -1
            · simp only [if_pos hv] at hform
              exact Option.noConfusion hform
            · simp only [if_neg hv] at hform ⊢
              exact backwardLoop_err f snap v h2 hform

/-- Once the merge marker is set it is never changed by any later step of
the forward loop. -/
theorem forwardSteps_stable (f : MasterFile) (future : Nat) :
    ∀ (steps snap : Nat) (ind merged : Int) (hist : List (Option GalRec))
      (out : List (Option GalRec) × Int),
    merged ≠ -1 →
    forwardSteps f future snap steps ind merged hist = .ok out →
    out.2 = merged
  | 0, snap, ind, merged, hist, out, _, h => by
    rw [forwardSteps] at h
    injection h with h2
    rw [← h2]
  | steps + 1, snap, ind, merged, hist, out, hm, h => by
    rw [forwardSteps] at h
    cases hd : readDescendantIndices f (snap - 1) with
    | none => simp only [hd] at h; exact Except.noConfusion h
    | some dArr =>
      simp only [hd] at h
      cases hgd : npGet dArr ind with
      | error e => simp only [hgd] at h; exact Except.noConfusion h
      | ok d =>
        simp only [hgd] at h
        by_cases hd1 : d = -1
        · simp only [if_pos hd1] at h
          injection h with h2
          rw [← h2]
        · simp only [if_neg hd1] at h
          by_cases hsf : snap < future
          · simp only [if_pos hsf] at h
            cases harr : readFirstprogenitorIndices f snap with
            | none => simp only [harr] at h; exact Except.noConfusion h
            | some fpArr =>
              simp only [harr] at h
              cases hgf : npGet fpArr d with
              | error e => simp only [hgf] at h; exact Except.noConfusion h
              | ok fp =>
                simp only [hgf] at h
                rw [if_neg (by simp [hm])] at h
                cases hr : fetchRecordE f snap d with
                | error e => simp only [hr] at h; exact Except.noConfusion h
                | ok r =>
                  simp only [hr] at h
                  cases hset : setE hist snap (some r) with
                  | error e => simp only [hset] at h; exact Except.noConfusion h
                  | ok hist2 =>
                    simp only [hset] at h
                    exact forwardSteps_stable f future steps (snap + 1) d merged hist2 out hm h
          · simp only [if_neg hsf] at h
            cases hr : fetchRecordE f snap d with
            | error e => simp only [hr] at h; exact Except.noConfusion h
            | ok r =>
              simp only [hr] at h
              cases hset : setE hist snap (some r) with
              | error e => simp only [hset] at h; exact Except.noConfusion h
              | ok hist2 =>
                simp only [hset] at h
                exact forwardSteps_stable f future steps (snap + 1) d merged hist2 out hm h

/-- When no step of the forward walk witnesses a first-progenitor
divergence, the merge marker stays `-1`. -/
theorem forwardSteps_noDivergence (f : MasterFile) (future : Nat) :
    ∀ (steps snap : Nat) (ind : Int) (hist : List (Option GalRec))
      (out : List (Option GalRec) × Int),
    forwardSteps f future snap steps ind (-1) hist = .ok out →
    anyDivergence f future snap steps ind = false →
    out.2 = -1
  | 0, snap, ind, hist, out, h, _ => by
    rw [forwardSteps] at h
    injection h with h2
    rw [← h2]
  | steps + 1, snap, ind, hist, out, h, hdiv => by
    rw [forwardSteps] at h
    rw [anyDivergence] at hdiv
    cases hd : readDescendantIndices f (snap - 1) with
    | none => simp only [hd] at h; exact Except.noConfusion h
    | some dArr =>
      simp only [hd] at h hdiv
      cases hgd : npGet dArr ind with
      | error e => simp only [hgd] at h; exact Except.noConfusion h
      | ok d =>
        simp only [hgd] at h hdiv
        by_cases hd1 : d = -1
        · simp only [if_pos hd1] at h
          injection h with h2
          rw [← h2]
        · simp only [if_neg hd1] at h hdiv
          by_cases hsf : snap < future
          · simp only [if_pos hsf] at h hdiv
            cases harr : readFirstprogenitorIndices f snap with
            | none => simp only [harr] at h; exact Except.noConfusion h
            | some fpArr =>
              simp only [harr] at h hdiv
              cases hgf : npGet fpArr d with
              | error e => simp only [hgf] at h; exact Except.noConfusion h
              | ok fp =>
                simp only [hgf] at h hdiv
                by_cases hfp : fp = ind
                · simp only [hfp, ne_eq, not_true_eq_false, false_and, if_false] at h
                  simp only [hfp] at hdiv
                  cases hr : fetchRecordE f snap d with
                  | error e => simp only [hr] at h; exact Except.noConfusion h
                  | ok r =>
                    simp only [hr] at h
                    cases hset : setE hist snap (some r) with
                    | error e => simp only [hset] at h; exact Except.noConfusion h
                    | ok hist2 =>
                      simp only [hset] at h
                      refine forwardSteps_noDivergence f future steps (snap + 1) d hist2 out h ?_
                      simpa using hdiv
                · simp only [if_pos (by simp [hfp] : fp ≠ ind), ne_eq] at hdiv
                  simp [hfp] at hdiv
          · simp only [if_neg hsf] at h hdiv
            cases hr : fetchRecordE f snap d with
            | error e => simp only [hr] at h; exact Except.noConfusion h
            | ok r =>
              simp only [hr] at h
              cases hset : setE hist snap (some r) with
              | error e => simp only [hset] at h; exact Except.noConfusion h
              | ok hist2 =>
                simp only [hset] at h
                exact forwardSteps_noDivergence f future steps (snap + 1) d hist2 out h hdiv

theorem formationOf_pos (f : MasterFile) : ∀ (snap : Nat) (ind : Int) (m : Nat),
    formationOf f snap ind = some m → 1 ≤ m
  | 0, ind, m, h => by
    rw [formationOf_zero] at h
    exact Option.noConfusion h
  | snap + 1, ind, m, h => by
    rw [formationOf, formBody] at h
    cases harr : readFirstprogenitorIndices f (snap + 1) with
    | none => simp only [harr] at h; exact Option.noConfusion h
    | some arr =>
      simp only [harr] at h
      cases hg : npGet arr ind with
      | error e => simp only [hg] at h; exact Option.noConfusion h
      | ok v =>
        simp only [hg] at h
        by_cases hv : v = -1
        · simp only [if_pos hv, Option.some_inj] at h
          omega
        · simp only [if_neg hv] at h
          exact formationOf_pos f snap v m h

/-- C10: calling `galaxy_history` with `0 ≤ future_snapshot < snapshot`
allocates a history buffer of only `future_snapshot + 1` slots, so the
very first write of the starting record at index `snapshot` is out of
bounds and the call fails with an index error before any link is
followed. -/
theorem C10_underallocation_index_error (f : MasterFile) (galId : Int) (snapshot : Nat)
    (fut : Int) (gals : List GalRec) (startInd : Nat)
    (hgals : readGalsAllE f snapshot = .ok gals)
    (hfind : gals.findIdx? (fun g => g.id = galId) = some startInd)
    (h0 : 0 ≤ fut) (hlt : fut < (snapshot : Int)) :
    galaxy_history f galId snapshot fut = .error .indexError := by
  have hf : effectiveFuture snapshot fut = fut := by
    rw [effectiveFuture, if_neg (by omega)]
  have hset : setE (List.replicate (fut + 1).toNat none) snapshot
      (some ((gals[startInd]?).getD uninitRec)) = .error .indexError := by
    rw [setE, if_neg (by rw [List.length_replicate]; omega)]
  simp only [galaxy_history, hgals, hfind, hf]
  rw [if_neg (by omega : ¬ fut + 1 < 0)]
  simp only [hset]

/-- C5 (amended): a galaxy whose stitched FirstProgenitor value at its own
starting snapshot is `-1` makes `galaxy_history` raise the `Warning`
exception ("This galaxy has no progenitors!"): the call aborts before the
backward loop and returns no history at all. -/
theorem C5_amended_no_progenitor_raises (f : MasterFile) (galId : Int) (snapshot : Nat)
    (fut : Int) (gals : List GalRec) (startInd : Nat) (fpArr : List Int)
    (hgals : readGalsAllE f snapshot = .ok gals)
    (hfind : gals.findIdx? (fun g => g.id = galId) = some startInd)
    (hfut : fut = -1 ∨ (snapshot : Int) ≤ fut)
    (hfp : readFirstprogenitorIndices f snapshot = some fpArr)
    (hg : npGet fpArr (startInd : Int) = .ok (-1)) :
    galaxy_history f galId snapshot fut = .error .warning := by
  have hf : (snapshot : Int) ≤ effectiveFuture snapshot fut := by
    rcases hfut with h | h
    · rw [effectiveFuture, if_pos h]
    · rw [effectiveFuture, if_neg (by omega)]
      exact h
  have hset : setE (List.replicate ((effectiveFuture snapshot fut) + 1).toNat none) snapshot
      (some ((gals[startInd]?).getD uninitRec))
      = .ok ((List.replicate ((effectiveFuture snapshot fut) + 1).toNat none).set snapshot
          (some ((gals[startInd]?).getD uninitRec))) := by
    rw [setE, if_pos (by rw [List.length_replicate]; omega)]
  simp only [galaxy_history, hgals, hfind]
  rw [if_neg (by omega : ¬ effectiveFuture snapshot fut + 1 < 0)]
  simp only [hset, hfp, hg]
  rw [if_pos trivial]

/-- C3 (amended): with the start lookups succeeding and a non-sentinel
first link, the backward phase of `galaxy_history` (run with the default
`future_snapshot = -1`) terminates exactly at the snapshot `m ≥ 1` where
the stitched FirstProgenitor value is `-1`, without error, and populates
exactly `snapshot - m + 1` history entries; but when the chain extends to
snapshot 0 (or any lookup along it fails) the call raises instead,
because the loop body at snapshot 0 still stitches FirstProgenitor there
and no group exists below snapshot 0. -/
theorem C3_amended_backward_termination (f : MasterFile) (galId : Int) (snapshot : Nat)
    (gals : List GalRec) (startInd : Nat) (fpArr : List Int) (ind0 : Int)
    (hpos : PositiveCounts f)
    (hgals : readGalsAllE f snapshot = .ok gals)
    (hfind : gals.findIdx? (fun g => g.id = galId) = some startInd)
    (hfp : readFirstprogenitorIndices f snapshot = some fpArr)
    (hg : npGet fpArr (startInd : Int) = .ok ind0)
    (hne : ind0 ≠ -1) :
    (∀ m, formationOf f (snapshot - 1) ind0 = some m →
      1 ≤ m ∧ ∃ hist, galaxy_history f galId snapshot (-1) = .ok (.historyOnly hist) ∧
        countPopulated hist = snapshot - m + 1) ∧
    (formationOf f (snapshot - 1) ind0 = none →
      ∃ e, galaxy_history f galId snapshot (-1) = .error e) := by
  have hs0 : snapshot ≠ 0 := by
    intro h
    rw [h, readFP_zero] at hfp
    exact Option.noConfusion hfp
  have heff : effectiveFuture snapshot (-1) = (snapshot : Int) := by
    rw [effectiveFuture, if_pos rfl]
  have htn : ((snapshot : Int) + 1).toNat = snapshot + 1 := by omega
  have hset : setE (List.replicate ((snapshot : Int) + 1).toNat none) snapshot
      (some ((gals[startInd]?).getD uninitRec))
      = .ok ((List.replicate (snapshot + 1) none).set snapshot
          (some ((gals[startInd]?).getD uninitRec))) := by
    rw [setE, if_pos (by rw [List.length_replicate]; omega), htn]
  cases snapshot with
  | zero => exact absurd rfl hs0
  | succ s2 =>
    constructor
    · intro m hform
      have hm1 : 1 ≤ m := formationOf_pos f (s2 + 1 - 1) ind0 m hform
      simp only [Nat.add_sub_cancel] at hform
      have hmle : m ≤ s2 := formationOf_le f s2 ind0 m hform
      have hinv : ∀ k, m ≤ k → k ≤ s2 →
          ((List.replicate (s2 + 1 + 1) none).set (s2 + 1)
            (some ((gals[startInd]?).getD uninitRec)))[k]? = some none := by
        intro k hmk hks
        rw [List.getElem?_set_ne (by omega), List.getElem?_replicate, if_pos (by omega)]
      obtain ⟨hist2, hb, hlen2, hcount⟩ := backwardLoop_ok f hpos s2 ind0
        ((List.replicate (s2 + 1 + 1) none).set (s2 + 1)
          (some ((gals[startInd]?).getD uninitRec))) m hform
        (by rw [List.length_set, List.length_replicate]; omega) hinv
      refine ⟨hm1, hist2, ?_, ?_⟩
      · simp only [galaxy_history, hgals, hfind, heff]
        rw [if_neg (by omega : ¬ (((s2 + 1 : Nat) : Int) + 1 < 0))]
        simp only [hset, hfp, hg, if_neg hne, hb]
        rw [if_pos trivial]
      · rw [hcount, countPopulated_set _ _ _
          (by rw [List.getElem?_replicate, if_pos (by omega)]),
          countPopulated_replicate]
        omega
    · intro hform
      simp only [Nat.add_sub_cancel] at hform
      obtain ⟨e, hb⟩ := backwardLoop_err f s2 ind0
        ((List.replicate (s2 + 1 + 1) none).set (s2 + 1)
          (some ((gals[startInd]?).getD uninitRec))) hform
      refine ⟨e, ?_⟩
      simp only [galaxy_history, hgals, hfind, heff]
      rw [if_neg (by omega : ¬ (((s2 + 1 : Nat) : Int) + 1 < 0))]
      simp only [hset, hfp, hg, if_neg hne, hb]

/-- C8: a successful `galaxy_history` call returns the history alone
exactly when the effective future snapshot (the default `-1` meaning the
start snapshot itself) equals the start snapshot; otherwise it returns the
pair, whose merge marker is `-1` whenever no step of the forward walk
witnessed a first-progenitor divergence. -/
theorem C8_return_shape (f : MasterFile) (galId : Int) (snapshot : Nat) (fut : Int)
    (res : GHResult) (gals : List GalRec) (startInd : Nat)
    (hok : galaxy_history f galId snapshot fut = .ok res)
    (hgals : readGalsAllE f snapshot = .ok gals)
    (hfind : gals.findIdx? (fun g => g.id = galId) = some startInd) :
    (effectiveFuture snapshot fut = (snapshot : Int) →
      ∃ hist, res = .historyOnly hist) ∧
    (effectiveFuture snapshot fut ≠ (snapshot : Int) →
      ∃ hist m, res = .withMerge hist m ∧
        (anyDivergence f (effectiveFuture snapshot fut).toNat (snapshot + 1)
            ((effectiveFuture snapshot fut).toNat - snapshot) (startInd : Int) = false →
          m = -1)) := by
  simp only [galaxy_history, hgals, hfind] at hok
  by_cases hneg : effectiveFuture snapshot fut + 1 < 0
  · rw [if_pos hneg] at hok
    exact Except.noConfusion hok
  · rw [if_neg hneg] at hok
    cases hset : setE (List.replicate (effectiveFuture snapshot fut + 1).toNat none) snapshot
        (some ((gals[startInd]?).getD uninitRec)) with
    | error e => simp only [hset] at hok; exact Except.noConfusion hok
    | ok hist1 =>
      simp only [hset] at hok
      cases hfp : readFirstprogenitorIndices f snapshot with
      | none => simp only [hfp] at hok; exact Except.noConfusion hok
      | some fpArr =>
        simp only [hfp] at hok
        cases hg : npGet fpArr (startInd : Int) with
        | error e => simp only [hg] at hok; exact Except.noConfusion hok
        | ok ind0 =>
          simp only [hg] at hok
          by_cases hi : ind0 = -1
          · rw [if_pos hi] at hok
            exact Except.noConfusion hok
          · rw [if_neg hi] at hok
            cases hbk : (match snapshot with
                         | 0 => Except.ok hist1
                         | s + 1 => backwardLoop f s ind0 hist1) with
            | error e => simp only [hbk] at hok; exact Except.noConfusion hok
            | ok hist2 =>
              simp only [hbk] at hok
              by_cases hf : effectiveFuture snapshot fut = (snapshot : Int)
              · rw [if_pos hf] at hok
                injection hok with hres
                exact ⟨fun _ => ⟨hist2, hres.symm⟩, fun hne => absurd hf hne⟩
              · rw [if_neg hf] at hok
                cases hfw : forwardSteps f (effectiveFuture snapshot fut).toNat (snapshot + 1)
                    ((effectiveFuture snapshot fut).toNat - snapshot) (startInd : Int) (-1)
                    hist2 with
                | error e => simp only [hfw] at hok; exact Except.noConfusion hok
                | ok pr =>
                  simp only [hfw] at hok
                  obtain ⟨hist3, merged⟩ := pr
                  injection hok with hres
                  refine ⟨fun heq => absurd heq hf, fun _ => ⟨hist3, merged, hres.symm, ?_⟩⟩
                  intro hdiv
                  exact forwardSteps_noDivergence f (effectiveFuture snapshot fut).toNat
                    ((effectiveFuture snapshot fut).toNat - snapshot) (snapshot + 1)
                    (startInd : Int) hist2 (hist3, merged) hfw hdiv

/-- C4: during the forward phase, the merge marker transition is sticky:
once `merged` is not `-1` no later step changes it; and a step strictly
before `future` that follows a non-sentinel descendant link and finds the
candidate descendant's stitched FirstProgenitor not pointing back at the
index it arrived from, while no merge has been recorded, sets the marker
to that snapshot, after which it is never changed. -/
theorem C4_merge_marker_sticky (f : MasterFile) (future : Nat) :
    (∀ (steps snap : Nat) (ind merged : Int) (hist : List (Option GalRec))
       (out : List (Option GalRec) × Int),
      merged ≠ -1 →
      forwardSteps f future snap steps ind merged hist = .ok out →
      out.2 = merged) ∧
    (∀ (steps snap : Nat) (ind : Int) (hist : List (Option GalRec))
       (out : List (Option GalRec) × Int) (dArr fpArr : List Int) (d fp : Int),
      readDescendantIndices f (snap - 1) = some dArr →
      npGet dArr ind = .ok d →
      d ≠ -1 →
      snap < future →
      readFirstprogenitorIndices f snap = some fpArr →
      npGet fpArr d = .ok fp →
      fp ≠ ind →
      forwardSteps f future snap (steps + 1) ind (-1) hist = .ok out →
      out.2 = (snap : Int)) := by
  constructor
  · exact fun steps snap ind merged hist out =>
      forwardSteps_stable f future steps snap ind merged hist out
  · intro steps snap ind hist out dArr fpArr d fp hd hgd hd1 hsf hfp hgf hne h
    rw [forwardSteps] at h
    simp only [hd, hgd, if_neg hd1, if_pos hsf, hfp, hgf] at h
    rw [if_pos ⟨hne, trivial⟩] at h
    cases hr : fetchRecordE f snap d with
    | error e => simp only [hr] at h; exact Except.noConfusion h
    | ok r =>
      simp only [hr] at h
      cases hset : setE hist snap (some r) with
      | error e => simp only [hset] at h; exact Except.noConfusion h
      | ok hist2 =>
        simp only [hset] at h
        exact forwardSteps_stable f future steps (snap + 1) d (snap : Int) hist2 out
          (by omega) h

/-- Counterexample to C3 as stated: in `exCat`, galaxy 30 at snapshot 2
has the non-sentinel chain 0 - 0 (its stitched FirstProgenitor at
snapshots 2 and 1 is never `-1`), so the backward phase runs down to
snapshot 0 — where the call fails with a lookup error instead of
terminating without error. -/
theorem C3_counterexample :
    readFirstprogenitorIndices exCat 2 = some [0, -1, 2] ∧
    readFirstprogenitorIndices exCat 1 = some [0, -1, -1] ∧
    galaxy_history exCat 30 2 (-1) = .error .keyError := by
  refine ⟨rfl, rfl, rfl⟩

/-- Counterexample to C5 as stated: galaxy 31 at snapshot 2 of `exCat` has
stitched FirstProgenitor `-1` at its own starting snapshot, and
`galaxy_history` aborts with the raised `Warning` instead of returning a
one-entry history. -/
theorem C5_counterexample :
    readFirstprogenitorIndices exCat 2 = some [0, -1, 2] ∧
    galaxy_history exCat 31 2 (-1) = .error .warning := by
  refine ⟨rfl, rfl⟩

/-- Counterexample to C6 as stated: `read_nextprogenitor_indices` never
opens an adjacent snapshot, so at snapshot 0 of `exCat` it succeeds
instead of failing with a lookup error. -/
theorem C6_counterexample :
    readNextprogenitorIndices exCat 0 = some [-2, 0, -1] := by
  rfl

/-- Counterexample to C7 as stated: snapshot 1 of `exCatShort` declares
three galaxies while its only link dataset holds one value, yet the
stitcher succeeds (padding with zeros) instead of failing. -/
theorem C7_counterexample :
    (exCatShort.snaps[1]?).map Snapshot.nGals = some 3 ∧
    (exCatShort.snaps[1]?).map
      (fun s => coreSeq s.cores Core.fp exCatShort.nCores) = some (some [[0]]) ∧
    readFirstprogenitorIndices exCatShort 1 = some [0, 0, 0] := by
  refine ⟨rfl, rfl, rfl⟩

/-- Witness for C1 at the concrete catalog `exCat`: all three kinds. -/
theorem C1_witness :
    readFirstprogenitorIndices exCat 2 = some (stitchRef [[0, -1], [1]] [1, 2]) ∧
    readNextprogenitorIndices exCat 1 = some (stitchRef [[-1], [-1, -1]] [1, 2]) ∧
    readDescendantIndices exCat 1 = some (stitchRef [[0], [-1, 0]] [2, 1]) := by
  refine ⟨?_, ?_, ?_⟩
  · exact C1_stitch_matches_reference.1 exCat 2 _ _ _ _ _ rfl (by decide) rfl rfl rfl rfl
      rfl (by decide) rfl
  · exact C1_stitch_matches_reference.2.1 exCat 1 _ _ _ rfl rfl rfl rfl (by decide) rfl
  · exact C1_stitch_matches_reference.2.2 exCat 1 _ _ _ _ _ rfl rfl rfl rfl rfl rfl
      (by decide) rfl

/-- Witness for C2: the sentinel at core 0, position 1 of the
FirstProgenitor datasets of snapshot 2 of `exCat` lands unchanged at
global position 1. -/
theorem C2_witness : (([0, -1, 2] : List Int))[1]? = some (-1) := by
  exact C2_sentinel_preserved exCat 2 .firstProgenitor [0, -1, 2] _ [[0, -1], [1]] 0 1
    [0, -1] rfl rfl rfl rfl rfl

/-- Witness for C9: the raw value `-2` at core 0, position 0 of the
NextProgenitor datasets of snapshot 0 of `exCat` passes through
un-offset. -/
theorem C9_witness : (([-2, 0, -1] : List Int))[0]? = some (-2) := by
  exact C9_below_sentinel_unchanged exCat 0 .nextProgenitor [-2, 0, -1] _ [[-2, 0], [-1]]
    0 0 [-2, 0] (-2) rfl rfl rfl rfl rfl (by decide)

/-- Witness for C6 (amended) at `exCat`: FirstProgenitor fails at snapshot
0, Descendant fails at the last snapshot, NextProgenitor succeeds at
snapshot 0. -/
theorem C6_witness :
    readFirstprogenitorIndices exCat 0 = none ∧
    readDescendantIndices exCat 2 = none ∧
    (readNextprogenitorIndices exCat 0).isSome := by
  refine ⟨C6_amended_boundary_failures.1 exCat,
    C6_amended_boundary_failures.2.1 exCat 2 rfl,
    C6_amended_boundary_failures.2.2 exCat _ [[-2, 0], [-1]] rfl rfl (by decide)⟩

/-- Witness for C7 (amended) at `exCat`, snapshot 2: the datasets fit the
declared total, so the stitch succeeds. -/
theorem C7_witness : (readFirstprogenitorIndices exCat 2).isSome := by
  exact (C7_amended_failure_iff_overflow.1 exCat 2 _ _ _ _ rfl (by decide) rfl rfl
    rfl).mpr (by decide)

/-- Witness for C3 (amended) at `exCat`: the history of galaxy 32 traced
from snapshot 2 stops at formation snapshot 1 and populates exactly
`2 - 1 + 1 = 2` entries. -/
theorem C3_witness :
    ∃ hist, galaxy_history exCat 32 2 (-1) = .ok (.historyOnly hist) ∧
      countPopulated hist = 2 := by
  obtain ⟨hm, hist, hh, hc⟩ :=
    (C3_amended_backward_termination exCat 32 2 _ _ _ _ (by decide) rfl rfl rfl rfl
      (by decide)).1 1 rfl
  exact ⟨hist, hh, hc⟩

/-- Witness for C5 (amended) at `exCat`: the call for galaxy 31 raises the
`Warning`. -/
theorem C5_witness : galaxy_history exCat 31 2 (-1) = .error .warning := by
  exact C5_amended_no_progenitor_raises exCat 31 2 (-1) _ _ _ rfl rfl (Or.inl rfl) rfl rfl

/-- Witness for C4 at `exCat`: the forward walk from global index 1 at
snapshot 1 towards snapshot 2 sees gal 20 whose stitched FirstProgenitor
(0) differs from the arrival index (1), and the returned merge marker is
that snapshot. -/
theorem C4_witness :
    ∃ out, forwardSteps exCat 2 1 2 1 (-1) (List.replicate 3 none) = .ok out ∧
      out.2 = 1 := by
  have e : forwardSteps exCat 2 1 2 1 (-1) (List.replicate 3 none)
      = .ok ([none, some { id := 20 }, some { id := 30 }], 1) := rfl
  refine ⟨_, e, ?_⟩
  exact (C4_merge_marker_sticky exCat 2).2 1 1 1 (List.replicate 3 none) _
    [0, 0, 2] [0, -1, -1] 0 0 rfl rfl (by decide) (by decide) rfl rfl (by decide) e

/-- Witness for C8: a default-future call returns the bare history, and a
forward call with no divergence returns the pair with marker `-1`. -/
theorem C8_witness :
    (∃ hist, galaxy_history exCat 32 2 (-1) = .ok (.historyOnly hist)) ∧
    (∃ hist m, galaxy_history exCatF 300 2 3 = .ok (.withMerge hist m) ∧ m = -1) := by
  constructor
  · have e1 : galaxy_history exCat 32 2 (-1)
        = .ok (.historyOnly [none, some { id := 22 }, some { id := 32 }]) := rfl
    obtain ⟨hist, hres⟩ := (C8_return_shape exCat 32 2 (-1) _ _ _ e1 rfl rfl).1 (by decide)
    exact ⟨hist, by rw [e1, hres]⟩
  · have e2 : galaxy_history exCatF 300 2 3
        = .ok (.withMerge [none, some { id := 200 }, some { id := 300 },
            some { id := 400 }] (-1)) := rfl
    obtain ⟨hist, m, hres, hnd⟩ :=
      (C8_return_shape exCatF 300 2 3 _ _ _ e2 rfl rfl).2 (by decide)
    exact ⟨hist, m, by rw [e2, hres], hnd (by decide)⟩

/-- Witness for C10 at `exCat`: requesting `future_snapshot = 1` from
start snapshot 2 fails with the index error. -/
theorem C10_witness : galaxy_history exCat 30 2 1 = .error .indexError := by
  exact C10_underallocation_index_error exCat 30 2 1 _ _ rfl rfl (by decide) (by decide)

end Dragons
